import Mathlib

/-!
Verification of the lore retrieval and context-composition engine of the
foundryvtt-mcp repository.

The definitions below are shallow embeddings of the TypeScript sources:
  - `src/rag/service.ts`   (RAGService: buildContext, search, lookupEntity,
                            getContextForSituation)
  - `src/rag/database.ts`  (LoreDatabase: search, getByTitle, state flags)
  - `src/tools/rag-handlers.ts` (the warhammer_context tool handler)
  - the ingestion script (parseEntry, ingestDataset)

External collaborators (the embedding model and the ChromaDB vector index)
are modelled as oracle functions passed in as parameters; JavaScript string
values are modelled as Lean `String`, JavaScript numbers used for lengths
and budgets as `Int`/`Nat`, and floating-point relevance scores as `ℚ`.
JavaScript truthiness tests on strings (the logical-or fallbacks in the
source) are modelled explicitly via `jsOr`.
-/

namespace FoundryRag

/-- Length of a JS string concatenation: lengths add. -/
theorem strLen_append (a b : String) : (a ++ b).length = a.length + b.length := by
  cases a; cases b; simp [String.length, String.append]

/-- Length of a JS `slice(0, n)` (modelled by `String.take`). -/
theorem strLen_take (s : String) (n : Nat) : (s.take n).length = min n s.length := by
  rw [String.take_eq]
  cases s
  simp [String.length, List.length_take]

/-- JS `Array.prototype.join(sep)`, as used by the source on string arrays. -/
def jsJoin (sep : String) : List String → String
  | [] => ""
  | [x] => x
  | x :: y :: rest => x ++ sep ++ jsJoin sep (y :: rest)

theorem intercalate_go_append (s a b : String) (ys : List String) :
    String.intercalate.go (a ++ b) s ys = a ++ String.intercalate.go b s ys := by
  induction ys generalizing b with
  | nil => rfl
  | cons c cs ih =>
    show String.intercalate.go ((a ++ b) ++ s ++ c) s cs = _
    rw [String.append_assoc, String.append_assoc, ← String.append_assoc b s c, ih]
    rfl

/-- JS array join agrees with Lean's intercalate. -/
theorem jsJoin_eq_intercalate (sep : String) (xs : List String) :
    jsJoin sep xs = String.intercalate sep xs := by
  match xs with
  | [] => rfl
  | [x] => rfl
  | x :: y :: rest =>
    have ih := jsJoin_eq_intercalate sep (y :: rest)
    show x ++ sep ++ jsJoin sep (y :: rest) = String.intercalate.go x sep (y :: rest)
    rw [ih]
    show x ++ sep ++ String.intercalate.go y sep rest
      = String.intercalate.go (x ++ sep ++ y) sep rest
    rw [intercalate_go_append sep (x ++ sep) y rest, String.append_assoc]

/-- JS truthiness fallback on an optional string (the source's logical-or on
string metadata): a missing value and the empty string both yield the default. -/
def jsOr (o : Option String) (dflt : String) : String :=
  match o with
  | none => dflt
  | some s => if s = "" then dflt else s

/-- Search result shape (`LoreResult` in `src/rag/database.ts`). -/
structure LoreResult where
  text : String
  title : String
  type : String
  relevance : ℚ
  url : Option String
deriving Repr, DecidableEq

/-- Packed context shape (`LoreContext` in `src/rag/service.ts`). -/
structure LoreContext where
  text : String
  sourceCount : Nat
  sources : List String
deriving Repr, DecidableEq

/-- The fixed header line of `RAGService.buildContext`. -/
def headerText : String := "## Relevant Warhammer Lore\n\n"

/-- The per-result entry format of `RAGService.buildContext`. -/
def entryFor (r : LoreResult) : String := "### " ++ r.title ++ "\n" ++ r.text ++ "\n\n"

/-- The for-loop of `RAGService.buildContext` (service.ts lines 123-142):
threads the accumulated context text, the tracked `currentLength`, and the
`sources` array; the `break` statements are the non-recursive branches. -/
def packLoop (maxLength : ℤ) : List LoreResult → String → ℤ → List String → String × List String
  | [], ctx, _, srcs => (ctx, srcs)
  | r :: rest, ctx, curLen, srcs =>
    let entry := entryFor r
    if curLen + (entry.length : ℤ) > maxLength then
      let available : ℤ := maxLength - curLen - 50
      if available > 200 then
        let truncated := "### " ++ r.title ++ "\n" ++ r.text.take available.toNat ++ "...\n\n"
        (ctx ++ truncated, srcs ++ [r.title])
      else
        (ctx, srcs)
    else
      packLoop maxLength rest (ctx ++ entry) (curLen + (entry.length : ℤ)) (srcs ++ [r.title])

/-- `RAGService.buildContext` (service.ts lines 110-149). -/
def buildContext (results : List LoreResult) (maxLength : ℤ) : LoreContext :=
  if results.length = 0 then
    { text := "", sourceCount := 0, sources := [] }
  else
    let p := packLoop maxLength results headerText (headerText.length : ℤ) []
    { text := p.1, sourceCount := p.2.length, sources := p.2 }

/-- The results that `buildContext` incorporates into the text (fully appended
ones, plus at most one truncated one), derived from the same branch structure
as `packLoop`. -/
def selectedResults (maxLength : ℤ) : List LoreResult → ℤ → List LoreResult
  | [], _ => []
  | r :: rest, curLen =>
    let entry := entryFor r
    if curLen + (entry.length : ℤ) > maxLength then
      if maxLength - curLen - 50 > 200 then [r] else []
    else
      r :: selectedResults maxLength rest (curLen + (entry.length : ℤ))

theorem packLoop_text_extends (maxLength : ℤ) (rs : List LoreResult) (ctx : String)
    (curLen : ℤ) (srcs : List String) :
    ∃ t, (packLoop maxLength rs ctx curLen srcs).1 = ctx ++ t := by
  induction rs generalizing ctx curLen srcs with
  | nil => exact ⟨"", by cases ctx; simp [packLoop, String.append]⟩
  | cons r rest ih =>
    by_cases h1 : curLen + ((entryFor r).length : ℤ) > maxLength
    · by_cases h2 : maxLength - curLen - 50 > 200
      · exact ⟨"### " ++ r.title ++ "\n" ++ r.text.take (maxLength - curLen - 50).toNat
          ++ "...\n\n", by simp [packLoop, h1, h2]⟩
      · refine ⟨"", ?_⟩
        simp [packLoop, h1, h2]
    · obtain ⟨t, ht⟩ := ih (ctx ++ entryFor r) (curLen + ((entryFor r).length : ℤ))
        (srcs ++ [r.title])

      exact ⟨entryFor r ++ t, by simp [packLoop, h1, ht, String.append_assoc]⟩

theorem packLoop_sources_eq (maxLength : ℤ) (rs : List LoreResult) (ctx : String)
    (curLen : ℤ) (srcs : List String) :
    (packLoop maxLength rs ctx curLen srcs).2
      = srcs ++ (selectedResults maxLength rs curLen).map (fun r => r.title) := by
  induction rs generalizing ctx curLen srcs with
  | nil => simp [packLoop, selectedResults]
  | cons r rest ih =>
    by_cases h1 : curLen + ((entryFor r).length : ℤ) > maxLength
    · by_cases h2 : maxLength - curLen - 50 > 200
      · simp [packLoop, selectedResults, h1, h2]
      · simp [packLoop, selectedResults, h1, h2]
    · simp [packLoop, selectedResults, h1, ih]

theorem packLoop_length_le (maxLength : ℤ) (rs : List LoreResult) (ctx : String)
    (curLen : ℤ) (srcs : List String)
    (hcur : (ctx.length : ℤ) = curLen) (hle : curLen ≤ maxLength)
    (ht : ∀ r ∈ rs, (r.title.length : ℤ) ≤ 40) :
    (((packLoop maxLength rs ctx curLen srcs).1.length : ℤ)) ≤ maxLength := by
  induction rs generalizing ctx curLen srcs with
  | nil => simpa [packLoop, hcur] using hle
  | cons r rest ih =>
    have htr : (r.title.length : ℤ) ≤ 40 := ht r (by simp)
    by_cases h1 : curLen + ((entryFor r).length : ℤ) > maxLength
    · by_cases h2 : maxLength - curLen - 50 > 200
      · simp only [packLoop, h1, if_true, h2]
        have e4 : ("### " : String).length = 4 := by decide
        have e1 : ("\n" : String).length = 1 := by decide
        have e5 : ("...\n\n" : String).length = 5 := by decide
        have htake : ((r.text.take (maxLength - curLen - 50).toNat).length : ℤ)
            ≤ maxLength - curLen - 50 := by
          rw [strLen_take]
          have h4 : (((maxLength - curLen - 50).toNat : ℤ)) = maxLength - curLen - 50 := by
            omega
          calc ((min (maxLength - curLen - 50).toNat r.text.length : ℕ) : ℤ)
              ≤ (((maxLength - curLen - 50).toNat : ℕ) : ℤ) := by
                exact_mod_cast Nat.min_le_left _ _
            _ = maxLength - curLen - 50 := h4
        simp only [strLen_append, e4, e1, e5]
        push_cast
        omega
      · simp only [packLoop, h1, if_true, h2, if_false]
        omega
    · simp only [packLoop, h1, if_false]
      push_neg at h1
      refine ih (ctx ++ entryFor r) (curLen + ((entryFor r).length : ℤ)) (srcs ++ [r.title])
        ?_ h1 (fun x hx => ht x (by simp [hx]))
      rw [strLen_append]
      push_cast
      omega

/-- Claim C1 amended theorem: whenever the budget is at least the 28-character
fixed header and every result title has at most 40 characters, the text of the
Context returned by `buildContext` has length at most `maxLength` — the fixed
50-character reservation then fully absorbs the truncated entry's title and
ellipsis marker. -/
theorem buildContext_length_within_budget (results : List LoreResult) (maxLength : ℤ)
    (hm : 28 ≤ maxLength) (ht : ∀ r ∈ results, (r.title.length : ℤ) ≤ 40) :
    ((buildContext results maxLength).text.length : ℤ) ≤ maxLength := by
  by_cases h : results.length = 0
  · simp [buildContext, h]
    omega
  · simp only [buildContext, h, if_false]
    exact packLoop_length_le maxLength results headerText (headerText.length : ℤ) []
      rfl (by norm_num [headerText, String.length]; omega) ht

/-- A small result whose formatted entry does not fit a budget of 10. -/
def rSmall : LoreResult := ⟨"some body text", "T", "general", 1, none⟩

/-- A result with a 60-character title and a 250-character body. -/
def rLongTitle : LoreResult :=
  ⟨String.mk (List.replicate 250 'b'), String.mk (List.replicate 60 'T'), "general", 1, none⟩

set_option maxRecDepth 40000 in
/-- Claim C1 counterexample: the text of the Context can exceed `maxLength`
plus the 3-character ellipsis allowance — with a small budget the 28-character
header alone overruns it, and with a 60-character title the truncated entry
overruns a budget of 300 because the 50-character reservation does not cover
the title. -/
theorem buildContext_exceeds_budget_allowance :
    10 + 3 < (buildContext [rSmall] 10).text.length
      ∧ 300 + 3 < (buildContext [rLongTitle] 300).text.length := by
  constructor
  · decide
  · decide

/-- Claim C1 witness: the amended bound at a concrete input. -/
theorem buildContext_length_within_budget_witness :
    (28 : ℤ) ≤ 2000 ∧ ((buildContext [rSmall] 2000).text.length : ℤ) ≤ 2000 :=
  ⟨by norm_num,
   buildContext_length_within_budget [rSmall] 2000 (by norm_num) (by decide)⟩

/-- A result that fits the default budget, used twice to exhibit duplication. -/
def rDup : LoreResult := ⟨"body", "Dup", "general", 1, none⟩

/-- Claim C2 counterexample: `buildContext` pushes each appended result's title
onto `sources` unconditionally, so two appended results with the same title
yield that title twice — `sources` is not duplicate-free. -/
theorem buildContext_duplicate_sources :
    (buildContext [rDup, rDup] 2000).sources = ["Dup", "Dup"]
      ∧ ¬ (buildContext [rDup, rDup] 2000).sources.Nodup := by
  constructor
  · decide
  · decide

/-- Claim C2 amended theorem: `sources` lists the title of every result that
was incorporated into the text (fully appended, plus at most one truncated),
in input order, one occurrence per incorporated result and with no
deduplication — so a title carried by two incorporated results appears twice. -/
theorem buildContext_sources_are_selected_titles (results : List LoreResult) (maxLength : ℤ) :
    (buildContext results maxLength).sources
      = (selectedResults maxLength results (headerText.length : ℤ)).map (fun r => r.title) := by
  by_cases h : results.length = 0
  · have : results = [] := List.length_eq_zero.mp h
    subst this
    simp [buildContext, selectedResults]
  · simp only [buildContext, h, if_false]
    simpa using packLoop_sources_eq maxLength results headerText (headerText.length : ℤ) []

/-- Claim C10: in every Context built by `buildContext`, `sourceCount` equals
the length of `sources`; an empty input yields the empty Context; a non-empty
input always yields a text that starts with the fixed header line (hence at
least 28 characters); and when the first entry does not fit and the remaining
space is below the usefulness threshold, the text is exactly the header while
`sourceCount` is 0. -/
theorem buildContext_sources_invariants (results : List LoreResult) (maxLength : ℤ) :
    ((buildContext results maxLength).sourceCount
        = (buildContext results maxLength).sources.length)
      ∧ (results = [] → buildContext results maxLength = ⟨"", 0, []⟩)
      ∧ (results ≠ [] → ∃ rest, (buildContext results maxLength).text = headerText ++ rest)
      ∧ (results ≠ [] → 28 ≤ (buildContext results maxLength).text.length)
      ∧ (∀ r rs, results = r :: rs →
          maxLength < 28 + ((entryFor r).length : ℤ) →
          maxLength - 28 - 50 ≤ 200 →
          (buildContext results maxLength).sourceCount = 0
            ∧ (buildContext results maxLength).text = headerText) := by
  refine ⟨?_, ?_, ?_, ?_, ?_⟩
  · by_cases h : results.length = 0 <;> simp [buildContext, h]
  · intro h
    subst h
    simp [buildContext]
  · intro h
    have hlen : ¬ results.length = 0 := by simpa [List.length_eq_zero] using h
    simp only [buildContext, hlen, if_false]
    exact packLoop_text_extends maxLength results headerText (headerText.length : ℤ) []
  · intro h
    have hlen : ¬ results.length = 0 := by simpa [List.length_eq_zero] using h
    simp only [buildContext, hlen, if_false]
    obtain ⟨t, ht⟩ := packLoop_text_extends maxLength results headerText
      (headerText.length : ℤ) []
    rw [ht, strLen_append]
    have : headerText.length = 28 := by decide
    omega
  · intro r rs hres h1 h2
    subst hres
    have hlen : ¬ (r :: rs).length = 0 := by simp
    have hcond : ((headerText.length : ℤ)) + ((entryFor r).length : ℤ) > maxLength := by
      have : headerText.length = 28 := by decide
      omega
    have hcond2 : ¬ (maxLength - (headerText.length : ℤ) - 50 > 200) := by
      have : headerText.length = 28 := by decide
      omega
    constructor
    · simp [buildContext, hlen, packLoop, hcond, hcond2]
    · simp [buildContext, hlen, packLoop, hcond, hcond2]

/-- Claim C10 witness: the invariants at a concrete non-fitting input. -/
theorem buildContext_sources_invariants_witness :
    (buildContext [rSmall] 10).sourceCount = 0
      ∧ (buildContext [rSmall] 10).text = headerText
      ∧ 28 ≤ (buildContext [rSmall] 10).text.length := by
  have h := buildContext_sources_invariants [rSmall] 10
  obtain ⟨h5a, h5b⟩ := h.2.2.2.2 rSmall [] rfl (by decide) (by norm_num)
  exact ⟨h5a, h5b, h.2.2.2.1 (by simp)⟩

/-- Metadata record attached to a hit returned by the ChromaDB index; each
field may be absent, as the source guards every access with optional chaining
and a logical-or fallback. -/
structure IndexMeta where
  title : Option String
  type : Option String
  url : Option String
deriving Repr, DecidableEq

/-- One nearest-neighbor hit as returned by `collection.query`: the document
text, its metadata, and its cosine distance, each possibly missing. -/
structure IndexHit where
  doc : Option String
  meta : Option IndexMeta
  distance : Option ℚ
deriving Repr, DecidableEq

/-- The nearest-neighbor query interface of the vector index (external
collaborator): query text, result count, optional exact category filter. -/
def IndexOracle : Type := String → Nat → Option String → List IndexHit

/-- A missing distance falls back to 0, as with the source's logical-or
(a stored distance of 0 is also falsy there, and also yields 0). -/
def hitDistance (h : IndexHit) : ℚ := h.distance.getD 0

/-- The per-hit Result constructed by `LoreDatabase.search` (database.ts
lines 226-233). -/
def hitResult (h : IndexHit) (relevance : ℚ) : LoreResult :=
  { text := h.doc.getD ""
    title := jsOr (h.meta.bind (fun m => m.title)) "Unknown"
    type := jsOr (h.meta.bind (fun m => m.type)) "general"
    relevance := relevance
    url := match h.meta.bind (fun m => m.url) with
           | none => none
           | some u => if u = "" then none else some u }

/-- The transformation loop of `LoreDatabase.search` (database.ts lines
214-235): convert each distance to a relevance via 1 - d, keep a hit only if
its relevance reaches the floor, preserving the index order. -/
def dbSearchHits : List IndexHit → ℚ → List LoreResult
  | [], _ => []
  | h :: rest, minRelevance =>
    let relevance := 1 - hitDistance h
    if minRelevance ≤ relevance then
      hitResult h relevance :: dbSearchHits rest minRelevance
    else
      dbSearchHits rest minRelevance

/-- The category filter built by `LoreDatabase.search` (database.ts lines
193-194 and 207-209): an exact-equality clause on the stored type, omitted
for the wildcard category and for a falsy (empty) category string. -/
def whereFor (category : String) : Option String :=
  if category = "" then none
  else if category = "any" then none
  else some category

/-- A document as stored in the ChromaDB collection by
`LoreDatabase.addDocuments` (database.ts lines 156-167): every metadata field
is written as a plain string, with empty-string defaults. -/
structure StoredDoc where
  id : String
  text : String
  title : String
  type : String
  aliases : String
  tags : String
  url : String
deriving Repr, DecidableEq

/-- `LoreDatabase.getByTitle` on a live collection (database.ts lines
249-265): exact match on the stored title, fixed relevance 1.0; a falsy
(empty) first matching document text makes the whole lookup return null. -/
def getByTitleDocs (docs : List StoredDoc) (title : String) : Option LoreResult :=
  match docs.find? (fun d => d.title = title) with
  | none => none
  | some d =>
    if d.text = "" then none
    else some
      { text := d.text
        title := if d.title = "" then title else d.title
        type := if d.type = "" then "general" else d.type
        relevance := 1
        url := if d.url = "" then none else some d.url }

/-- The mutable state of a `LoreDatabase`: the collection handle (null until
initialization) and the initialization flag. -/
structure DbState where
  collection : Option (List StoredDoc)
  dbInitializedFlag : Bool
deriving Repr, DecidableEq

/-- The error kinds surfaced by the query-family operations. -/
inductive RagError where
  | notInitialized
deriving Repr, DecidableEq

/-- `LoreDatabase.search` (database.ts lines 173-239): fails when the
collection handle is null, otherwise queries the index with the category
filter and transforms the hits. -/
def dbSearchOp (db : DbState) (oracle : IndexOracle) (query : String)
    (limit : Nat) (category : String) (minRelevance : ℚ) :
    Except RagError (List LoreResult) :=
  match db.collection with
  | none => .error .notInitialized
  | some _ => .ok (dbSearchHits (oracle query limit (whereFor category)) minRelevance)

/-- `LoreDatabase.getByTitle` (database.ts lines 244-266), including the
null-collection guard. -/
def dbGetByTitleOp (db : DbState) (title : String) : Except RagError (Option LoreResult) :=
  match db.collection with
  | none => .error .notInitialized
  | some docs => .ok (getByTitleDocs docs title)

/-- Successful `LoreDatabase.initialize` (database.ts lines 102-120):
idempotent; on first call it acquires the collection (whose persisted
contents are a parameter) and sets the flag. -/
def dbInit (db : DbState) (persisted : List StoredDoc) : DbState :=
  if db.dbInitializedFlag then db
  else { collection := some persisted, dbInitializedFlag := true }

/-- Membership characterization for the search transformation loop. -/
theorem dbSearchHits_eq_filter (hits : List IndexHit) (minRelevance : ℚ) :
    dbSearchHits hits minRelevance
      = (hits.map (fun h => hitResult h (1 - hitDistance h))).filter
          (fun r => decide (minRelevance ≤ r.relevance)) := by
  induction hits with
  | nil => rfl
  | cons h rest ih =>
    by_cases hrel : minRelevance ≤ 1 - hitDistance h
    · simp [dbSearchHits, hrel, ih, List.filter, hitResult]
    · simp [dbSearchHits, hrel, ih, List.filter, hitResult]

/-- The closed category vocabulary of the data model. -/
def loreCategories : List String :=
  ["any", "character", "location", "creature", "item", "event",
   "organization", "deity", "spell", "general"]

/-- Claim C5: on an initialized database, every returned Result has relevance
at least `minRelevance` (with relevance derived from the index distance as
1 - d), and whenever the index returns its hits nearest-first (non-decreasing
distances) the Result list has non-increasing relevance; moreover the output
is a sublist of the in-order transformation of the index hits, so the index
order is preserved without re-sorting. -/
theorem dbSearch_floor_and_order (db : DbState) (docs : List StoredDoc)
    (oracle : IndexOracle) (query : String) (limit : Nat) (category : String)
    (minRelevance : ℚ) (results : List LoreResult)
    (hinit : db.collection = some docs)
    (hok : dbSearchOp db oracle query limit category minRelevance = .ok results) :
    (∀ r ∈ results, minRelevance ≤ r.relevance)
      ∧ (List.Sorted (· ≤ ·)
            ((oracle query limit (whereFor category)).map hitDistance) →
         List.Sorted (· ≥ ·) (results.map (fun r => r.relevance)))
      ∧ List.Sublist results
          ((oracle query limit (whereFor category)).map
            (fun h => hitResult h (1 - hitDistance h))) := by
  have hres : results
      = dbSearchHits (oracle query limit (whereFor category)) minRelevance := by
    rw [dbSearchOp, hinit] at hok
    exact (Except.ok.injEq _ _).mp hok.symm
  subst hres
  rw [dbSearchHits_eq_filter]
  refine ⟨?_, ?_, ?_⟩
  · intro r hr
    have := List.of_mem_filter hr
    simpa using this
  · intro hsorted
    have hmapsorted : List.Sorted (· ≥ ·)
        (((oracle query limit (whereFor category)).map
            (fun h => hitResult h (1 - hitDistance h))).map (fun r => r.relevance)) := by
      rw [List.map_map]
      have : ((fun r : LoreResult => r.relevance) ∘ fun h => hitResult h (1 - hitDistance h))
          = fun h => 1 - hitDistance h := by
        funext h
        simp [hitResult]
      rw [this]
      rw [List.Sorted, List.pairwise_map] at hsorted ⊢
      exact hsorted.imp (by intro a b hab; simp; linarith)
    exact hmapsorted.sublist (List.Sublist.map _ (List.filter_sublist _))
  · exact List.filter_sublist _

/-- A two-hit sorted index response used as the concrete C5 witness. -/
def hitsPair : List IndexHit :=
  [⟨some "first doc", some ⟨some "A", some "general", none⟩, some 0⟩,
   ⟨some "second doc", some ⟨some "B", some "general", none⟩, some 1⟩]

/-- A database state holding a live, empty collection. -/
def dbReady : DbState := ⟨some [], true⟩

/-- Claim C5 witness: the floor and the ordering at a concrete sorted index
response. -/
theorem dbSearch_floor_and_order_witness :
    (∀ r ∈ dbSearchHits hitsPair 0, (0:ℚ) ≤ r.relevance)
      ∧ List.Sorted (· ≥ ·) ((dbSearchHits hitsPair 0).map (fun r => r.relevance)) := by
  have h := dbSearch_floor_and_order dbReady [] (fun _ _ _ => hitsPair) "q" 2 "any"
    0 (dbSearchHits hitsPair 0) rfl rfl
  exact ⟨h.1, h.2.1 (by decide)⟩

/-- Claim C6: for every category other than the wildcard, `LoreDatabase.search`
passes an exact-equality filter on that category to the index, and — under the
index contract that every hit returned for such a filter carries that exact
stored type — every returned Result's category equals the requested one. -/
theorem dbSearch_category_exact_filter (db : DbState) (oracle : IndexOracle)
    (query : String) (limit : Nat) (category : String) (minRelevance : ℚ)
    (results : List LoreResult)
    (hcat : category ∈ loreCategories) (hany : category ≠ "any")
    (hok : dbSearchOp db oracle query limit category minRelevance = .ok results) :
    whereFor category = some category
      ∧ ((∀ h ∈ oracle query limit (some category),
            ∃ m, h.meta = some m ∧ m.type = some category) →
         ∀ r ∈ results, r.type = category) := by
  have hne : category ≠ "" := by
    simp only [loreCategories, List.mem_cons, List.not_mem_nil, or_false] at hcat
    rcases hcat with rfl|rfl|rfl|rfl|rfl|rfl|rfl|rfl|rfl|rfl <;> decide
  have hwhere : whereFor category = some category := by
    simp [whereFor, hne, hany]
  refine ⟨hwhere, ?_⟩
  intro hcontract r hr
  have hres : ∃ docs, db.collection = some docs := by
    cases hcol : db.collection with
    | none => rw [dbSearchOp, hcol] at hok; cases hok
    | some docs => exact ⟨docs, rfl⟩
  obtain ⟨docs, hcol⟩ := hres
  rw [dbSearchOp, hcol] at hok
  have hres2 : results = dbSearchHits (oracle query limit (whereFor category)) minRelevance :=
    (Except.ok.injEq _ _).mp hok.symm
  subst hres2
  rw [dbSearchHits_eq_filter] at hr
  have hr2 := List.mem_of_mem_filter hr
  obtain ⟨h, hmem, hbuild⟩ := List.mem_map.mp hr2
  rw [hwhere] at hmem
  obtain ⟨m, hm, hmtype⟩ := hcontract h hmem
  rw [← hbuild]
  simp [hitResult, hm, hmtype, jsOr, hne]

/-- Claim C6 witness: the exact filter and category equality at a concrete
index response. -/
theorem dbSearch_category_exact_filter_witness :
    whereFor "location" = some "location"
      ∧ ∀ r ∈ dbSearchHits
            [⟨some "Altdorf text", some ⟨some "Altdorf", some "location", none⟩, some 0⟩]
            (3/10),
          r.type = "location" := by
  have h := dbSearch_category_exact_filter dbReady
    (fun _ _ _ => [⟨some "Altdorf text", some ⟨some "Altdorf", some "location", none⟩, some 0⟩])
    "capital city" 5 "location" (3/10)
    (dbSearchHits
      [⟨some "Altdorf text", some ⟨some "Altdorf", some "location", none⟩, some 0⟩] (3/10))
    (by decide) (by decide) rfl
  exact ⟨h.1, h.2 (by intro x hx; simp at hx; subst hx; exact ⟨_, rfl, rfl⟩)⟩

/-- The options record of `RAGService.search` (service.ts lines 14-23);
each field is optional and carries a default at the use site. -/
structure LoreSearchOptions where
  limit : Option Nat
  category : Option String
  minRelevance : Option ℚ
deriving Repr, DecidableEq

/-- The mutable state of the `RAGService` / `LoreDatabase` pair: the wrapped
database state and the service's own initialization flag. -/
structure RagServiceState where
  db : DbState
  svcInitializedFlag : Bool
deriving Repr, DecidableEq

/-- `RAGService.search` (service.ts lines 81-94): fail fast when the service
flag is unset, otherwise apply the defaults (limit 5, category any,
minRelevance 0.3) and delegate to the database search. -/
def svcSearch (st : RagServiceState) (oracle : IndexOracle) (query : String)
    (options : LoreSearchOptions) : Except RagError (List LoreResult) :=
  if st.svcInitializedFlag = false then .error .notInitialized
  else
    dbSearchOp st.db oracle query (options.limit.getD 5) (options.category.getD "any")
      (options.minRelevance.getD (3/10))

/-- `RAGService.getByTitle` (service.ts lines 99-105). -/
def svcGetByTitle (st : RagServiceState) (title : String) :
    Except RagError (Option LoreResult) :=
  if st.svcInitializedFlag = false then .error .notInitialized
  else dbGetByTitleOp st.db title

/-- `RAGService.lookupEntity` (service.ts lines 167-182): exact title lookup
first; only when it yields nothing, fall back to a semantic search with
limit 1 (the category option is set only when a truthy category was given),
returning the first hit or none. -/
def lookupEntity (st : RagServiceState) (oracle : IndexOracle) (name : String)
    (category : Option String) : Except RagError (Option LoreResult) :=
  match svcGetByTitle st name with
  | .error e => .error e
  | .ok (some exact) => .ok (some exact)
  | .ok none =>
    let options : LoreSearchOptions :=
      { limit := some 1
        category := category.bind (fun c => if c = "" then none else some c)
        minRelevance := none }
    match svcSearch st oracle name options with
    | .error e => .error e
    | .ok results => .ok results.head?

/-- `RAGService.getContextForSituation` (service.ts lines 187-198):
join the situation and the entity names with single spaces into one query,
search with limit 5 and relevance floor 0.25, pack into a budget of 3000. -/
def getContextForSituation (st : RagServiceState) (oracle : IndexOracle)
    (situation : String) (entities : List String) : Except RagError LoreContext :=
  let query := jsJoin " " ([situation] ++ entities)
  match svcSearch st oracle query
      { limit := some 5, category := none, minRelevance := some (1/4) } with
  | .error e => .error e
  | .ok results => .ok (buildContext results 3000)

/-- Successful `RAGService.initialize` (service.ts lines 51-62): idempotent;
on first call it initializes the database and then sets the service flag. -/
def ragInit (st : RagServiceState) (persisted : List StoredDoc) : RagServiceState :=
  if st.svcInitializedFlag then st
  else { db := dbInit st.db persisted, svcInitializedFlag := true }

/-- Claim C3: `lookupEntity` attempts the exact title lookup first — when the
collection's first document with the requested title has truthy text, the call
returns that document with relevance 1.0 for every index oracle (so the
semantic search cannot influence the outcome) — and only when the exact lookup
yields nothing does it return the head of a limit-1 semantic search, or none
when that search is empty. -/
theorem lookupEntity_exact_match_first (st : RagServiceState) (oracle : IndexOracle)
    (docs : List StoredDoc) (name : String) (category : Option String)
    (hinit : st.svcInitializedFlag = true) (hcol : st.db.collection = some docs) :
    (∀ d, docs.find? (fun x => x.title = name) = some d → d.text ≠ "" →
        ∃ r, (∀ oracle2 : IndexOracle,
                lookupEntity st oracle2 name category = .ok (some r))
          ∧ r.relevance = 1)
      ∧ (getByTitleDocs docs name = none →
          lookupEntity st oracle name category
            = .ok ((dbSearchHits (oracle name 1 (whereFor (jsOr category "any")))
                (3/10)).head?)) := by
  constructor
  · intro d hfind htext
    refine ⟨{ text := d.text
              title := if d.title = "" then name else d.title
              type := if d.type = "" then "general" else d.type
              relevance := 1
              url := if d.url = "" then none else some d.url }, ?_, rfl⟩
    intro oracle2
    have hget : getByTitleDocs docs name = some
        { text := d.text
          title := if d.title = "" then name else d.title
          type := if d.type = "" then "general" else d.type
          relevance := 1
          url := if d.url = "" then none else some d.url } := by
      simp [getByTitleDocs, hfind, htext]
    simp [lookupEntity, svcGetByTitle, hinit, dbGetByTitleOp, hcol, hget]
  · intro hnone
    have hcatres : (category.bind (fun c => if c = "" then none else some c)).getD "any"
        = jsOr category "any" := by
      cases category with
      | none => rfl
      | some c =>
        by_cases hc : c = "" <;> simp [jsOr, hc]
    simp only [lookupEntity, svcGetByTitle, hinit, Bool.true_eq_false, if_false,
      dbGetByTitleOp, hcol, hnone, svcSearch, dbSearchOp, Option.getD_some,
      Option.getD_none]
    rw [hcatres]

/-- An index oracle returning no hits, used by the concrete witnesses. -/
def oracleEmpty : IndexOracle := fun _ _ _ => []

/-- The single stored document used as the concrete C3 witness. -/
def docKarl : StoredDoc :=
  ⟨"doc1", "The Emperor of the Empire.", "Karl Franz", "character", "", "", ""⟩

/-- A ready service state whose collection holds only `docKarl`. -/
def stReady : RagServiceState := ⟨⟨some [docKarl], true⟩, true⟩

/-- Claim C3 witness: at a concrete collection, the exact lookup answers with
relevance 1.0 no matter the oracle, and a missing title falls back to the
limit-1 semantic search. -/
theorem lookupEntity_exact_match_first_witness :
    (∃ r, (∀ oracle2 : IndexOracle,
            lookupEntity stReady oracle2 "Karl Franz" none = .ok (some r))
        ∧ r.relevance = 1)
      ∧ lookupEntity stReady oracleEmpty "Sigmar" none
          = .ok ((dbSearchHits (oracleEmpty "Sigmar" 1
              (whereFor (jsOr none "any"))) (3/10)).head?) := by
  have h := lookupEntity_exact_match_first stReady oracleEmpty [docKarl]
    "Karl Franz" none rfl rfl
  have h2 := lookupEntity_exact_match_first stReady oracleEmpty [docKarl]
    "Sigmar" none rfl rfl
  exact ⟨h.1 docKarl (by decide) (by decide), h2.2 (by decide)⟩

/-- Claim C7: `getContextForSituation` queries with the situation first and
then the entity names in input order joined by single spaces, searches with
result count 5, relevance floor 0.25 and no category filter, and packs the
results into a budget of 3000 characters. -/
theorem getContextForSituation_composition (st : RagServiceState)
    (oracle : IndexOracle) (situation : String) (entities : List String)
    (docs : List StoredDoc)
    (hinit : st.svcInitializedFlag = true) (hcol : st.db.collection = some docs) :
    getContextForSituation st oracle situation entities
      = .ok (buildContext
          (dbSearchHits
            (oracle (String.intercalate " " (situation :: entities)) 5 none) (1/4))
          3000) := by
  have hq : jsJoin " " ([situation] ++ entities)
      = String.intercalate " " (situation :: entities) := by
    rw [jsJoin_eq_intercalate]
    rfl
  have hwhere : whereFor "any" = none := by decide
  simp only [getContextForSituation, svcSearch, hinit, Bool.true_eq_false, if_false,
    dbSearchOp, hcol, Option.getD_some, Option.getD_none, hq, hwhere]

/-- Claim C7 witness: the composition at a concrete ready state and oracle. -/
theorem getContextForSituation_composition_witness :
    getContextForSituation stReady oracleEmpty "temple" ["Sigmar", "Altdorf"]
      = .ok (buildContext
          (dbSearchHits
            (oracleEmpty
              (String.intercalate " " ["temple", "Sigmar", "Altdorf"]) 5 none) (1/4))
          3000) :=
  getContextForSituation_composition stReady oracleEmpty "temple"
    ["Sigmar", "Altdorf"] [docKarl] rfl rfl

/-- Claim C8: while the service flag is unset, `search`, `getByTitle` and
`lookupEntity` all fail fast with the NotInitialized error (and so do the
database-level operations while the collection handle is null); after a
successful initialization from the uninitialized state, the same calls all
return ok results. -/
theorem query_ops_fail_fast_until_ready (st : RagServiceState) (oracle : IndexOracle)
    (query name : String) (options : LoreSearchOptions) (category : Option String)
    (limit : Nat) (cat : String) (minRelevance : ℚ) (persisted : List StoredDoc) :
    (st.svcInitializedFlag = false →
        svcSearch st oracle query options = .error .notInitialized
          ∧ svcGetByTitle st name = .error .notInitialized
          ∧ lookupEntity st oracle name category = .error .notInitialized)
      ∧ (st.db.collection = none →
          dbSearchOp st.db oracle query limit cat minRelevance = .error .notInitialized
            ∧ dbGetByTitleOp st.db name = .error .notInitialized)
      ∧ (st.svcInitializedFlag = false → st.db.dbInitializedFlag = false →
          (ragInit st persisted).svcInitializedFlag = true
            ∧ (∃ v, svcSearch (ragInit st persisted) oracle query options = .ok v)
            ∧ (∃ v, svcGetByTitle (ragInit st persisted) name = .ok v)
            ∧ (∃ v, lookupEntity (ragInit st persisted) oracle name category = .ok v)) := by
  refine ⟨?_, ?_, ?_⟩
  · intro hoff
    refine ⟨by simp [svcSearch, hoff], by simp [svcGetByTitle, hoff], ?_⟩
    simp [lookupEntity, svcGetByTitle, hoff]
  · intro hcol
    exact ⟨by simp [dbSearchOp, hcol], by simp [dbGetByTitleOp, hcol]⟩
  · intro hoff hdboff
    have hst : ragInit st persisted
        = { db := { collection := some persisted, dbInitializedFlag := true },
            svcInitializedFlag := true } := by
      simp [ragInit, hoff, dbInit, hdboff]
    refine ⟨by rw [hst], ?_, ?_, ?_⟩
    · rw [hst]
      exact ⟨_, rfl⟩
    · rw [hst]
      exact ⟨_, rfl⟩
    · rw [hst]
      cases hget : getByTitleDocs persisted name with
      | some r =>
        have heq : lookupEntity
            ⟨⟨some persisted, true⟩, true⟩ oracle name category = .ok (some r) := by
          simp [lookupEntity, svcGetByTitle, dbGetByTitleOp, hget]
        exact ⟨_, heq⟩
      | none =>
        have heq : lookupEntity
            ⟨⟨some persisted, true⟩, true⟩ oracle name category
            = .ok ((dbSearchHits (oracle name 1
                (whereFor ((category.bind
                  (fun c => if c = "" then none else some c)).getD "any")))
                (3/10)).head?) := by
          simp [lookupEntity, svcGetByTitle, dbGetByTitleOp, hget, svcSearch, dbSearchOp]
        exact ⟨_, heq⟩

/-- The service state before any initialization. -/
def stFresh : RagServiceState := ⟨⟨none, false⟩, false⟩

/-- Claim C8 witness: fail-fast before and acceptance after initialization at
the concrete uninitialized state. -/
theorem query_ops_fail_fast_until_ready_witness :
    svcSearch stFresh oracleEmpty "q" ⟨none, none, none⟩ = .error .notInitialized
      ∧ lookupEntity stFresh oracleEmpty "Karl Franz" none = .error .notInitialized
      ∧ (∃ v, svcSearch (ragInit stFresh [docKarl]) oracleEmpty "q"
            ⟨none, none, none⟩ = .ok v)
      ∧ (∃ v, lookupEntity (ragInit stFresh [docKarl]) oracleEmpty "Karl Franz"
            none = .ok v) := by
  have h := query_ops_fail_fast_until_ready stFresh oracleEmpty "q" "Karl Franz"
    ⟨none, none, none⟩ none 5 "any" (3/10) [docKarl]
  obtain ⟨h1, _, h3⟩ := h
  obtain ⟨ha, hb, hc⟩ := h1 rfl
  obtain ⟨_, hs, _, hl⟩ := h3 rfl rfl
  exact ⟨ha, hc, hs, hl⟩

/-- Arguments of the `warhammer_context` tool (rag-handlers.ts lines 77-79). -/
structure WarhammerContextArgs where
  situation : String
  entities : Option (List String)
  maxLength : Option ℤ
deriving Repr, DecidableEq

/-- The `warhammer_context` branch of `handleRAGTool` (rag-handlers.ts lines
76-94): it resolves `entities` and `maxLength` (default 2000, a falsy 0 also
giving 2000) from the arguments, but — exactly as the source does — never
passes `maxLength` on, always delegating to `getContextForSituation` and its
fixed budget of 3000. -/
def warhammerContextOp (st : RagServiceState) (oracle : IndexOracle)
    (args : WarhammerContextArgs) : Except RagError LoreContext :=
  let entities := args.entities.getD []
  let _maxLength : ℤ := match args.maxLength with
    | none => 2000
    | some n => if n = 0 then 2000 else n
  getContextForSituation st oracle args.situation entities

/-- The packed text length of a handler outcome (0 for an error outcome). -/
def ctxTextLen : Except RagError LoreContext → Nat
  | .ok c => c.text.length
  | .error _ => 0

/-- An 80-character document body used by the concrete C4 input. -/
def medText : String := String.mk (List.replicate 80 'x')

/-- An oracle returning a single 80-character document at distance 0. -/
def oracleMed : IndexOracle :=
  fun _ _ _ => [⟨some medText, some ⟨some "T", some "general", none⟩, some 0⟩]

/-- Packing a single result that fits the budget yields the header followed
by its full formatted entry, and records its title once. -/
theorem buildContext_single_fit (r : LoreResult) (m : ℤ)
    (h : 28 + ((entryFor r).length : ℤ) ≤ m) :
    buildContext [r] m = ⟨headerText ++ entryFor r, 1, [r.title]⟩ := by
  have hh : ((headerText.length : ℕ) : ℤ) = 28 := by decide
  have hfit : ¬ ((headerText.length : ℤ) + ((entryFor r).length : ℤ) > m) := by
    rw [hh]
    omega
  simp [buildContext, packLoop, hfit]

/-- Claim C4: the `warhammer_context` handler reads `maxLength` (default 2000)
but ignores it — the outcome is identical for any two `maxLength` arguments —
and at a concrete call with `maxLength` 100 the returned Context's packed text
is 116 characters long, exceeding the caller-supplied bound: the packed text
is bounded by the fixed 3000 budget of `getContextForSituation`, not by
`maxLength`. -/
theorem warhammerContext_ignores_maxLength :
    (∀ (st : RagServiceState) (oracle : IndexOracle) (situation : String)
        (entities : Option (List String)) (m1 m2 : Option ℤ),
      warhammerContextOp st oracle ⟨situation, entities, m1⟩
        = warhammerContextOp st oracle ⟨situation, entities, m2⟩)
      ∧ ctxTextLen (warhammerContextOp stReady oracleMed ⟨"temple", none, some 100⟩) = 116
      ∧ 100 < ctxTextLen (warhammerContextOp stReady oracleMed ⟨"temple", none, some 100⟩) := by
  have hmed : medText.length = 80 := by
    show (List.replicate 80 'x').length = 80
    rw [List.length_replicate]
  have hr : hitResult ⟨some medText, some ⟨some "T", some "general", none⟩, some 0⟩
        (1 - hitDistance ⟨some medText, some ⟨some "T", some "general", none⟩, some 0⟩)
      = ⟨medText, "T", "general", 1 - 0, none⟩ := by
    simp [hitResult, hitDistance, jsOr]
  have hhits : dbSearchHits (oracleMed "temple" 5 none) (1/4)
      = [⟨medText, "T", "general", 1 - 0, none⟩] := by
    show dbSearchHits [⟨some medText, some ⟨some "T", some "general", none⟩, some 0⟩]
        (1/4) = _
    rw [dbSearchHits]
    rw [if_pos (by norm_num [hitDistance])]
    rw [hr]
    rfl
  have hentry : ((entryFor ⟨medText, "T", "general", 1 - 0, none⟩).length : ℤ) = 88 := by
    simp [entryFor, strLen_append, hmed]
    decide
  have hval0 : warhammerContextOp stReady oracleMed ⟨"temple", none, some 100⟩
      = .ok (buildContext (dbSearchHits (oracleMed "temple" 5 none) (1/4)) 3000) := rfl
  have hval : warhammerContextOp stReady oracleMed ⟨"temple", none, some 100⟩
      = .ok (buildContext [⟨medText, "T", "general", 1 - 0, none⟩] 3000) := by
    rw [hval0, hhits]
  have hpack : buildContext [⟨medText, "T", "general", 1 - 0, none⟩] 3000
      = ⟨headerText ++ entryFor ⟨medText, "T", "general", 1 - 0, none⟩, 1, ["T"]⟩ :=
    buildContext_single_fit _ 3000 (by rw [hentry]; norm_num)
  have hlen : ctxTextLen (warhammerContextOp stReady oracleMed
      ⟨"temple", none, some 100⟩) = 116 := by
    rw [hval, hpack]
    show (headerText ++ entryFor ⟨medText, "T", "general", 1 - 0, none⟩).length = 116
    rw [strLen_append]
    have h28 : headerText.length = 28 := by decide
    omega
  refine ⟨?_, hlen, ?_⟩
  · intro st oracle situation entities m1 m2
    rfl
  · rw [hlen]
    norm_num

/-- The `content` sub-object of a raw Lexicanum record (ingestion script
lines 27-31). -/
structure EntryContent where
  summary : Option String
  description : Option String
  text : Option String
deriving Repr, DecidableEq

/-- A raw Lexicanum record as parsed from one dataset chunk (ingestion script
lines 24-36); every field may be absent. -/
structure LexicanumEntry where
  id : Option String
  title : Option String
  content : Option EntryContent
  type : Option String
  aliases : Option (List String)
  tags : Option (List String)
  url : Option String
deriving Repr, DecidableEq

/-- Metadata of a document handed to `LoreDatabase.addDocuments`
(`LoreDocument.metadata` in database.ts lines 46-52). -/
structure LoreDocMeta where
  title : String
  type : String
  aliases : Option (List String)
  tags : Option (List String)
  url : Option String
deriving Repr, DecidableEq

/-- A document handed to `LoreDatabase.addDocuments` (`LoreDocument` in
database.ts lines 43-53). -/
structure LoreDocument where
  id : String
  text : String
  metadata : LoreDocMeta
deriving Repr, DecidableEq

/-- JS `s.includes(sub)`: substring containment. -/
def jsIncludes (s sub : String) : Bool := decide (sub.toList <:+: s.toList)

/-- The text extraction of `parseEntry` (ingestion script lines 73-87):
join the truthy content parts with blank lines, falling back to a truthy
title when the joined content is empty. -/
def extractText (entry : LexicanumEntry) : String :=
  let fromContent :=
    match entry.content with
    | none => ""
    | some c =>
      jsJoin "\n\n"
        (([c.summary, c.description, c.text].filterMap id).filter (fun s => s ≠ ""))
  if fromContent = "" then
    match entry.title with
    | none => fromContent
    | some t => if t = "" then fromContent else t
  else fromContent

/-- The type normalization chain of `parseEntry` (ingestion script lines
97-107): lowercase with a 'general' fallback, then eight sequential
keyword-containment rewrites, each reading the current value. -/
def normalizeType (raw : Option String) : String :=
  let t0 := jsOr (raw.map String.toLower) "general"
  let t1 := if jsIncludes t0 "person" || jsIncludes t0 "character" then "character" else t0
  let t2 := if jsIncludes t1 "place" || jsIncludes t1 "city" || jsIncludes t1 "region"
    then "location" else t1
  let t3 := if jsIncludes t2 "creature" || jsIncludes t2 "monster" || jsIncludes t2 "race"
    then "creature" else t2
  let t4 := if jsIncludes t3 "weapon" || jsIncludes t3 "artifact" || jsIncludes t3 "magic item"
    then "item" else t3
  let t5 := if jsIncludes t4 "battle" || jsIncludes t4 "war" || jsIncludes t4 "event"
    then "event" else t4
  let t6 := if jsIncludes t5 "guild" || jsIncludes t5 "order" || jsIncludes t5 "faction"
    then "organization" else t5
  let t7 := if jsIncludes t6 "god" || jsIncludes t6 "deity" then "deity" else t6
  if jsIncludes t7 "spell" || jsIncludes t7 "magic" then "spell" else t7

/-- `parseEntry` (ingestion script lines 69-123). The outcome of the raw
JSON parse is the input (`none` when `JSON.parse` threw, making the catch
branch return null); the randomly generated fallback id is a parameter.
Entries with fewer than 50 characters of extracted text are dropped; the
stored text is cut at 3000 characters. -/
def parseEntry (parsed : Option LexicanumEntry) (freshId : String) : Option LoreDocument :=
  match parsed with
  | none => none
  | some entry =>
    let text := extractText entry
    if text.length < 50 then none
    else
      some
        { id := jsOr entry.id freshId
          text := text.take 3000
          metadata :=
            { title := jsOr entry.title "Unknown"
              type := normalizeType entry.type
              aliases := entry.aliases
              tags := entry.tags
              url := entry.url } }

/-- The running counters of `ingestDataset` (ingestion script lines 174-177). -/
structure IngestOutcome where
  totalProcessed : Nat
  totalIndexed : Nat
  errors : Nat
deriving Repr, DecidableEq

/-- The ingestion batch size (ingestion script line 22). -/
def batchSize : Nat := 50

/-- One batch write attempt of `ingestDataset` (lines 188-198 and 201-210):
on success the batch length is added to the indexed counter, on failure the
error counter is incremented — the error counter counts failed batch
writes only. -/
def ingestFlush (addOk : List LoreDocument → Bool) (batch : List LoreDocument)
    (acc : IngestOutcome) : IngestOutcome :=
  if addOk batch then { acc with totalIndexed := acc.totalIndexed + batch.length }
  else { acc with errors := acc.errors + 1 }

/-- The entry loop of `ingestDataset` (ingestion script lines 179-210),
including the final partial batch write. Each element of `entries` is the
parse outcome of one dataset chunk; `addOk` is the database's verdict on a
batch write. -/
def ingestLoop (addOk : List LoreDocument → Bool) (freshId : String) :
    List (Option LexicanumEntry) → List LoreDocument → IngestOutcome → IngestOutcome
  | [], batch, acc =>
    if batch.length = 0 then acc else ingestFlush addOk batch acc
  | e :: rest, batch, acc =>
    let acc2 := { acc with totalProcessed := acc.totalProcessed + 1 }
    let batch2 :=
      match parseEntry e freshId with
      | some doc => batch ++ [doc]
      | none => batch
    if batchSize ≤ batch2.length then
      ingestLoop addOk freshId rest [] (ingestFlush addOk batch2 acc2)
    else
      ingestLoop addOk freshId rest batch2 acc2

/-- `ingestDataset` run over a list of parsed chunks, starting from zeroed
counters and an empty batch. -/
def ingestRun (addOk : List LoreDocument → Bool) (freshId : String)
    (entries : List (Option LexicanumEntry)) : IngestOutcome :=
  ingestLoop addOk freshId entries [] ⟨0, 0, 0⟩

theorem ingestFlush_processed (addOk : List LoreDocument → Bool)
    (batch : List LoreDocument) (acc : IngestOutcome) :
    (ingestFlush addOk batch acc).totalProcessed = acc.totalProcessed := by
  unfold ingestFlush
  by_cases h : addOk batch = true <;> simp [h]

theorem ingestFlush_shift (addOk : List LoreDocument → Bool)
    (batch : List LoreDocument) (p i e : Nat) :
    ingestFlush addOk batch ⟨p + 1, i, e⟩
      = { ingestFlush addOk batch ⟨p, i, e⟩ with
          totalProcessed := (ingestFlush addOk batch ⟨p, i, e⟩).totalProcessed + 1 } := by
  unfold ingestFlush
  by_cases h : addOk batch = true <;> simp [h]

theorem ingestLoop_processed_shift (addOk : List LoreDocument → Bool) (freshId : String)
    (es : List (Option LexicanumEntry)) :
    ∀ (batch : List LoreDocument) (p i e : Nat),
      ingestLoop addOk freshId es batch ⟨p + 1, i, e⟩
        = { ingestLoop addOk freshId es batch ⟨p, i, e⟩ with
            totalProcessed := (ingestLoop addOk freshId es batch ⟨p, i, e⟩).totalProcessed + 1 } := by
  induction es with
  | nil =>
    intro batch p i e
    by_cases h : batch.length = 0
    · simp [ingestLoop, h]
    · simp only [ingestLoop, h, if_false]
      exact ingestFlush_shift addOk batch p i e
  | cons hd tl ih =>
    intro batch p i e
    simp only [ingestLoop]
    cases hparse : parseEntry hd freshId with
    | some doc =>
      by_cases hbs : batchSize ≤ (batch ++ [doc]).length
      · simp only [hparse, hbs, if_true]
        rw [ingestFlush_shift]
        cases hflush : ingestFlush addOk (batch ++ [doc]) ⟨p + 1, i, e⟩ with
        | mk fp fi fe => exact ih [] fp fi fe
      · simp only [hparse, hbs, if_false]
        exact ih (batch ++ [doc]) (p + 1) i e
    | none =>
      by_cases hbs : batchSize ≤ batch.length
      · simp only [hparse, hbs, if_true]
        rw [ingestFlush_shift]
        cases hflush : ingestFlush addOk batch ⟨p + 1, i, e⟩ with
        | mk fp fi fe => exact ih [] fp fi fe
      · simp only [hparse, hbs, if_false]
        exact ih batch (p + 1) i e

/-- Claim C9 counterexample: running the ingestion over a single malformed
chunk (one on which `JSON.parse` throws) processes it, skips it, and leaves
the error counter at 0 — the claim that a malformed record is counted as an
error is false: only failed batch writes are counted. -/
theorem ingest_malformed_skipped_uncounted :
    ingestRun (fun _ => true) "fresh" [none] = ⟨1, 0, 0⟩
      ∧ ¬ 1 ≤ (ingestRun (fun _ => true) "fresh" [none]).errors := by
  constructor
  · decide
  · decide

/-- The value of `parseEntry` on a parseable entry whose extracted text
passes the 50-character threshold. -/
theorem parseEntry_some_eq (entry : LexicanumEntry) (freshId : String)
    (h : ¬ (extractText entry).length < 50) :
    parseEntry (some entry) freshId = some
      { id := jsOr entry.id freshId
        text := (extractText entry).take 3000
        metadata :=
          { title := jsOr entry.title "Unknown"
            type := normalizeType entry.type
            aliases := entry.aliases
            tags := entry.tags
            url := entry.url } } := by
  simp [parseEntry, h]

/-- Claim C9 amended theorem: a record with fewer than 50 characters of
extractable text is discarded; a stored record's text is the extracted text
cut to at most 3000 characters; and a malformed record is skipped without
aborting the batch or the run — the remaining records are processed exactly
as before with only the processed counter incremented — but it is not counted
in the error counter, which counts failed batch writes only. -/
theorem ingest_thresholds_and_malformed_skip (entry : LexicanumEntry)
    (freshId : String) (d : LoreDocument) (entries : List (Option LexicanumEntry))
    (addOk : List LoreDocument → Bool) :
    ((extractText entry).length < 50 → parseEntry (some entry) freshId = none)
      ∧ (parseEntry (some entry) freshId = some d →
          d.text = (extractText entry).take 3000 ∧ d.text.length ≤ 3000)
      ∧ ingestRun addOk freshId (none :: entries)
          = { ingestRun addOk freshId entries with
              totalProcessed := (ingestRun addOk freshId entries).totalProcessed + 1 } := by
  refine ⟨?_, ?_, ?_⟩
  · intro hshort
    simp [parseEntry, hshort]
  · intro hsome
    by_cases hshort : (extractText entry).length < 50
    · simp only [parseEntry] at hsome
      simp [hshort] at hsome
    · rw [parseEntry_some_eq entry freshId hshort] at hsome
      have hinj := Option.some.inj hsome
      have htext : d.text = (extractText entry).take 3000 := by
        rw [← hinj]
      refine ⟨htext, ?_⟩
      rw [htext, strLen_take]
      exact Nat.min_le_left _ _
  · show ingestLoop addOk freshId (none :: entries) [] ⟨0, 0, 0⟩ = _
    have hstep : ingestLoop addOk freshId (none :: entries) [] ⟨0, 0, 0⟩
        = ingestLoop addOk freshId entries [] ⟨1, 0, 0⟩ := by
      simp [ingestLoop, parseEntry, batchSize]
    rw [hstep]
    exact ingestLoop_processed_shift addOk freshId entries [] 0 0 0

/-- A raw record whose extractable text is 3 characters long. -/
def entryShort : LexicanumEntry := ⟨some "e1", some "Bob", none, none, none, none, none⟩

/-- A raw record whose summary is 60 characters long. -/
def entryMed : LexicanumEntry :=
  ⟨some "e2", some "Morr", some ⟨some (String.mk (List.replicate 60 's')), none, none⟩,
    some "god", none, none, none⟩

/-- Claim C9 witness: the thresholds and the malformed-skip equation at
concrete inputs. -/
theorem ingest_thresholds_and_malformed_skip_witness :
    parseEntry (some entryShort) "f" = none
      ∧ (∀ d, parseEntry (some entryMed) "f" = some d → d.text.length ≤ 3000)
      ∧ ingestRun (fun _ => true) "f" [none, some entryShort]
          = { ingestRun (fun _ => true) "f" [some entryShort] with
              totalProcessed :=
                (ingestRun (fun _ => true) "f" [some entryShort]).totalProcessed + 1 } := by
  refine ⟨?_, ?_, ?_⟩
  · exact (ingest_thresholds_and_malformed_skip entryShort "f"
      ⟨"", "", ⟨"", "", none, none, none⟩⟩ [] (fun _ => true)).1 (by decide)
  · intro d hd
    exact ((ingest_thresholds_and_malformed_skip entryMed "f" d [] (fun _ => true)).2.1
      hd).2
  · exact (ingest_thresholds_and_malformed_skip entryShort "f"
      ⟨"", "", ⟨"", "", none, none, none⟩⟩ [some entryShort] (fun _ => true)).2.2

end FoundryRag
